import Mathlib

/-!
Verification of the event-intake and batched-dispatch engine of the
`eds-server` repository (package `internal/consumer`, file `consumer.go`),
against its natural-language specification.

The Go code is shallowly embedded: the consumer's mutable fields become a
`BufState` record, the dispatcher loop body (`Consumer.bufferer`) becomes a
step function on that record driven by an explicit input (context
cancellation, a message arriving from the buffer, or the empty-buffer
default branch), and the externally observable calls (`Ack`, `Nak`,
`driver.Process`, sends on the error channel) become an explicit action
trace.  The driver and the broker are external collaborators, so their
responses (result of `driver.Flush`, result of `driver.Process`, success of
each `Ack` call) are inputs to the model: `flushResult` / `processResult`
oracles indexed by call count, and a per-message `ackOk` field recording
whether the broker accepts the ack.

Times are integers (milliseconds); `time.Since(x) = now - x` and
`a.Before(b) = a < b`.
-/

namespace EDS

/-- Time in milliseconds (the code compares `time.Time` values with
`Before`, i.e. strict `<`, and converts event timestamps with
`time.UnixMilli`). -/
abbrev Time := Int

/-- `minPendingLatency = time.Second * 2` from `consumer.go`. -/
def minPendingLatency : Time := 2000

/-- `maxPendingLatency = time.Second * 30` from `consumer.go`. -/
def maxPendingLatency : Time := 30000

/-- The fields of `internal.DBChangeEvent` that the consumer core reads. -/
structure DBChangeEvent where
  table : String
  timestamp : Int
  operation : String
  modelVersion : String
  schemaValidatedPath : Option String := none
  deriving DecidableEq, Repr

/-- Result of `SchemaValidator.Validate`: `(found, valid, path, err)`.
`err = some e` models a non-nil error return. -/
structure ValidationResult where
  found : Bool
  valid : Bool
  path : String
  err : Option String
  deriving DecidableEq, Repr

/-- An upstream `jetstream.Msg` together with the externally determined
outcomes of the calls the consumer makes on it: `metadataOk` is whether
`msg.Metadata()` returns nil error, `decoded` the result of
`json.Unmarshal` of its payload, `ackOk` whether `msg.Ack()` returns nil,
`numPending` the metadata field `md.NumPending`. -/
structure Msg where
  id : Nat
  metadataOk : Bool := true
  decoded : Option DBChangeEvent
  ackOk : Bool := true
  numPending : Nat := 0
  deriving DecidableEq, Repr

/-- Error value returned by `driver.Flush`: either the sentinel
`internal.ErrDriverStopped` (matched via `errors.Is`) or any other error. -/
inductive FlushErr where
  | driverStopped
  | other (msg : String)
  deriving DecidableEq, Repr

/-- Externally observable actions issued by the consumer: acknowledgement
calls on upstream messages, sends on the error channel `subError`, and
calls to `driver.Process`. -/
inductive Action where
  | ackCall (id : Nat)
  | nakCall (id : Nat)
  | emit (e : String)
  | processCall (id : Nat) (evt : DBChangeEvent)
  deriving DecidableEq, Repr

/-- The static configuration and external-collaborator behaviour visible to
the dispatcher: `max` is `c.max` (= `MaxAckPending`), `hasDriver` whether
`c.driver != nil`, `maxBatchSize` the value of `driver.MaxBatchSize()`,
`tableTimestamps` the per-table watermark map (`none` models a nil map; a
table absent from the map or mapped to a nil pointer is `none`),
`validator` the optional schema validator, and `processResult` /
`flushResult` the results of the n-th `driver.Process` / `driver.Flush`
call. -/
structure Cfg where
  max : Nat
  hasDriver : Bool := true
  maxBatchSize : Int
  tableTimestamps : Option (String → Option Time) := none
  validator : Option (DBChangeEvent → ValidationResult) := none
  processResult : Nat → Except String Bool := fun _ => .ok false
  flushResult : Nat → Option FlushErr := fun _ => none

/-- The consumer fields mutated by the dispatcher: the pending batch, the
`pendingStarted` pointer, the `stopping` flag, and counters of calls made
so far to `driver.Process` and `driver.Flush` (indices into the oracles). -/
structure BufState where
  pending : List Msg
  pendingStarted : Option Time
  stopping : Bool := false
  processCount : Nat := 0
  flushCount : Nat := 0
  deriving Repr

/-- The initial dispatcher state: `CreateConsumer` sets
`consumer.pending = make([]jetstream.Msg, 0)` and leaves `pendingStarted`
nil. -/
def initState : BufState :=
  { pending := [], pendingStarted := none }

/-- `Consumer.nackEverything`, trace part: call `Nak` on every pending
message in order (a nak error is only logged, so the call is issued on
every message regardless). -/
def nakAll (pending : List Msg) : List Action :=
  pending.map fun m => .nakCall m.id

/-- State after `nackEverything`: `c.pending = nil; c.pendingStarted = nil`. -/
def clearPending (s : BufState) : BufState :=
  { s with pending := [], pendingStarted := none }

/-- The ack loop inside `Consumer.flush`: ack each pending message in
order; stop at the first `Ack` that returns an error.  Returns the ack
calls issued (including the failing one) and whether all succeeded. -/
def ackLoop : List Msg → List Action × Bool
  | [] => ([], true)
  | m :: rest =>
    if m.ackOk then
      let r := ackLoop rest
      (.ackCall m.id :: r.1, r.2)
    else ([.ackCall m.id], false)

/-- `Consumer.flush` (consumer.go lines 143–179).  Returns the new state,
the action trace of this invocation, and the boolean the Go function
returns (`true` tells the caller in `bufferer` to return).

- `c.driver == nil`: return `c.stopping` having done nothing.
- `driver.Flush` returns the `ErrDriverStopped` sentinel: `nackEverything`
  and return true, emitting nothing.
- `driver.Flush` returns any other error: `handleError` = log,
  `nackEverything`, send the error on `subError`; return true.
- `driver.Flush` returns nil: ack each pending message in order; on the
  first ack error, log it, `nackEverything` (note: over the FULL pending
  slice, which still contains the already-acked messages) and return true;
  if all acks succeed, reset `pending` and `pendingStarted` and return
  `c.stopping`. -/
def flush (cfg : Cfg) (s : BufState) : BufState × List Action × Bool :=
  if !cfg.hasDriver then (s, [], s.stopping)
  else
    let s1 : BufState := { s with flushCount := s.flushCount + 1 }
    match cfg.flushResult s.flushCount with
    | some .driverStopped => (clearPending s1, nakAll s.pending, true)
    | some (.other e) => (clearPending s1, nakAll s.pending ++ [.emit e], true)
    | none =>
      let r := ackLoop s.pending
      if r.2 then (clearPending s1, r.1, s.stopping)
      else (clearPending s1, r.1 ++ nakAll s.pending, true)

/-- `Consumer.shouldSkip` (consumer.go lines 181–211).  Returns whether the
event is skipped and the (possibly updated) event: when the validator
reports a non-empty matched path, `evt.SchemaValidatedPath` is set.

Order of checks, as in the source: watermark first (skip when a watermark
exists for `evt.Table` and `time.UnixMilli(evt.Timestamp)` is strictly
before it), then the validator (skip on validation error, on no schema
found, or on invalid). -/
def shouldSkip (cfg : Cfg) (evt : DBChangeEvent) : Bool × DBChangeEvent :=
  let wmSkip :=
    match cfg.tableTimestamps with
    | none => false
    | some tt =>
      match tt evt.table with
      | none => false
      | some w => decide (evt.timestamp < w)
  if wmSkip then (true, evt)
  else
    match cfg.validator with
    | none => (false, evt)
    | some v =>
      let r := v evt
      if r.err.isSome then (true, evt)
      else if !r.found then (true, evt)
      else if !r.valid then (true, evt)
      else if r.path ≠ "" then (false, { evt with schemaValidatedPath := some r.path })
      else (false, evt)

/-- Remove the first element equal to `m` (the `for i, m := range c.pending
{ if m == msg { ... } }` removal in the skip branch). -/
def removeFirst : List Msg → Msg → List Msg
  | [], _ => []
  | x :: xs, m => if x = m then xs else x :: removeFirst xs m

/-- The effective batch cap computed in `bufferer`:
`maxsize := c.driver.MaxBatchSize(); if maxsize <= 0 { maxsize = c.max }`. -/
def effectiveMaxBatch (cfg : Cfg) : Int :=
  if cfg.maxBatchSize ≤ 0 then (cfg.max : Int) else cfg.maxBatchSize

/-- One scheduling decision of the `select` in `Consumer.bufferer`:
the context is done, a message is received from `c.buffer` at wall-clock
time `now`, or the buffer is empty (`default` branch) at time `now`
(`ctxDoneLater` is the inner `select` on `ctx.Done()` taken when pending
is empty). -/
inductive Input where
  | ctxDone
  | msgArrive (m : Msg) (now : Time)
  | bufferEmpty (now : Time) (ctxDoneLater : Bool)

/-- Result of one iteration of the dispatcher loop body: `continue` with a
new state, `return` (the goroutine exits), or a nil-pointer dereference
panic (`*c.pendingStarted` read while `c.pendingStarted == nil`).  Each
carries the actions issued during the iteration. -/
inductive StepOut where
  | cont (s : BufState) (acts : List Action)
  | stop (s : BufState) (acts : List Action)
  | panicked (acts : List Action)

/-- One iteration of `Consumer.bufferer`'s loop (consumer.go lines
224–330), faithful to the source:

- `ctx.Done()`: `nackEverything`, return.
- message branch: `msg.Metadata()` error ⇒ `handleError` (nak pending —
  the message is appended only after this check — and emit), return;
  append to pending; decode error ⇒ `handleError`, return; `shouldSkip` ⇒
  ack the message (ack errors only logged), remove it from pending,
  continue; `driver.Process` error ⇒ `handleError`, return;
  `maxsize := driver.MaxBatchSize()`, `≤ 0` replaced by `c.max`;
  `flushHint || len(pending) ≥ maxsize` ⇒ flush (return if it says so);
  set `pendingStarted` if nil; `NumPending > max` during catch-up ⇒
  continue; `len(pending) ≥ max || since(pendingStarted) ≥
  maxPendingLatency` ⇒ flush.
- `default` branch: if `0 < len(pending) < max`, dereference
  `*c.pendingStarted` (panic when nil) and flush when the min latency has
  passed; else if pending non-empty, continue; else check `ctx.Done()`
  again or sleep. -/
def step (cfg : Cfg) (s : BufState) : Input → StepOut
  | .ctxDone => .stop (clearPending s) (nakAll s.pending)
  | .msgArrive msg now =>
    if !msg.metadataOk then
      .stop (clearPending s) (nakAll s.pending ++ [.emit "metadata error"])
    else
      let s1 : BufState := { s with pending := s.pending ++ [msg] }
      match msg.decoded with
      | none => .stop (clearPending s1) (nakAll s1.pending ++ [.emit "unmarshal error"])
      | some evt0 =>
        let sk := shouldSkip cfg evt0
        if sk.1 then
          .cont { s1 with pending := removeFirst s1.pending msg } [.ackCall msg.id]
        else
          let evt := sk.2
          match cfg.processResult s1.processCount with
          | .error e =>
            .stop (clearPending { s1 with processCount := s1.processCount + 1 })
              (.processCall msg.id evt :: (nakAll s1.pending ++ [.emit e]))
          | .ok flushHint =>
            let s2 : BufState := { s1 with processCount := s1.processCount + 1 }
            let maxsize : Int := effectiveMaxBatch cfg
            if flushHint ∨ (s2.pending.length : Int) ≥ maxsize then
              let r := flush cfg s2
              if r.2.2 then .stop r.1 (.processCall msg.id evt :: r.2.1)
              else .cont r.1 (.processCall msg.id evt :: r.2.1)
            else
              let ps := s2.pendingStarted.getD now
              let s3 : BufState := { s2 with pendingStarted := some ps }
              if msg.numPending > cfg.max ∧ now - ps < maxPendingLatency * 2 then
                .cont s3 [.processCall msg.id evt]
              else if s3.pending.length ≥ cfg.max ∨ now - ps ≥ maxPendingLatency then
                let r := flush cfg s3
                if r.2.2 then .stop r.1 (.processCall msg.id evt :: r.2.1)
                else .cont r.1 (.processCall msg.id evt :: r.2.1)
              else .cont s3 [.processCall msg.id evt]
  | .bufferEmpty now ctxDoneLater =>
    let count := s.pending.length
    if 0 < count ∧ count < cfg.max then
      match s.pendingStarted with
      | none => .panicked []
      | some ps =>
        if now - ps ≥ minPendingLatency then
          let r := flush cfg s
          if r.2.2 then .stop r.1 r.2.1 else .cont r.1 r.2.1
        else .cont s []
    else if 0 < count then .cont s []
    else if ctxDoneLater then .stop (clearPending s) (nakAll s.pending)
    else .cont s []

/-- Outcome of running the dispatcher on a list of scheduling inputs:
final state and accumulated trace (`stopped` records whether the loop
returned before exhausting the inputs), or a panic. -/
inductive RunOut where
  | ok (s : BufState) (acts : List Action) (stopped : Bool)
  | panicked (acts : List Action)

/-- Run the dispatcher loop over a list of inputs, accumulating the action
trace. -/
def run (cfg : Cfg) (s : BufState) : List Input → RunOut
  | [] => .ok s [] false
  | i :: rest =>
    match step cfg s i with
    | .panicked as => .panicked as
    | .stop s' as => .ok s' as true
    | .cont s' as =>
      match run cfg s' rest with
      | .ok s'' as' st => .ok s'' (as ++ as') st
      | .panicked as' => .panicked (as ++ as')

/-! ### Observations on action traces -/

/-- The ids of a list of messages. -/
def msgIds (l : List Msg) : List Nat := l.map Msg.id

/-- Ids on which an `Ack` call was issued, in trace order. -/
def ackIds (t : List Action) : List Nat :=
  t.filterMap fun a => match a with | .ackCall i => some i | _ => none

/-- Ids on which a `Nak` call was issued, in trace order. -/
def nakIds (t : List Action) : List Nat :=
  t.filterMap fun a => match a with | .nakCall i => some i | _ => none

/-- Errors sent on the `subError` channel, in trace order. -/
def emits (t : List Action) : List String :=
  t.filterMap fun a => match a with | .emit e => some e | _ => none

/-- Events handed to `driver.Process`, with the id of the carrying message,
in trace order. -/
def processCalls (t : List Action) : List (Nat × DBChangeEvent) :=
  t.filterMap fun a => match a with | .processCall i e => some (i, e) | _ => none

@[simp] lemma ackIds_nil : ackIds [] = [] := rfl
@[simp] lemma nakIds_nil : nakIds [] = [] := rfl
@[simp] lemma emits_nil : emits [] = [] := rfl
@[simp] lemma processCalls_nil : processCalls [] = [] := rfl

@[simp] lemma ackIds_append (t u : List Action) :
    ackIds (t ++ u) = ackIds t ++ ackIds u := List.filterMap_append ..
@[simp] lemma nakIds_append (t u : List Action) :
    nakIds (t ++ u) = nakIds t ++ nakIds u := List.filterMap_append ..
@[simp] lemma emits_append (t u : List Action) :
    emits (t ++ u) = emits t ++ emits u := List.filterMap_append ..
@[simp] lemma processCalls_append (t u : List Action) :
    processCalls (t ++ u) = processCalls t ++ processCalls u := List.filterMap_append ..

@[simp] lemma ackIds_cons (a : Action) (t : List Action) :
    ackIds (a :: t) =
      (match a with | .ackCall i => [i] | _ => []) ++ ackIds t := by
  cases a <;> simp [ackIds, List.filterMap_cons]
@[simp] lemma nakIds_cons (a : Action) (t : List Action) :
    nakIds (a :: t) =
      (match a with | .nakCall i => [i] | _ => []) ++ nakIds t := by
  cases a <;> simp [nakIds, List.filterMap_cons]
@[simp] lemma emits_cons (a : Action) (t : List Action) :
    emits (a :: t) =
      (match a with | .emit e => [e] | _ => []) ++ emits t := by
  cases a <;> simp [emits, List.filterMap_cons]
@[simp] lemma processCalls_cons (a : Action) (t : List Action) :
    processCalls (a :: t) =
      (match a with | .processCall i e => [(i, e)] | _ => []) ++ processCalls t := by
  cases a <;> simp [processCalls, List.filterMap_cons]

@[simp] lemma nakAll_nil : nakAll [] = [] := rfl
@[simp] lemma nakAll_cons (m : Msg) (r : List Msg) :
    nakAll (m :: r) = .nakCall m.id :: nakAll r := rfl
@[simp] lemma msgIds_nil : msgIds [] = [] := rfl
@[simp] lemma msgIds_cons (m : Msg) (r : List Msg) :
    msgIds (m :: r) = m.id :: msgIds r := rfl
@[simp] lemma msgIds_append (l u : List Msg) :
    msgIds (l ++ u) = msgIds l ++ msgIds u := List.map_append ..

@[simp] lemma ackIds_nakAll (l : List Msg) : ackIds (nakAll l) = [] := by
  induction l with
  | nil => rfl
  | cons m r ih => simp [ih]

@[simp] lemma nakIds_nakAll (l : List Msg) : nakIds (nakAll l) = msgIds l := by
  induction l with
  | nil => rfl
  | cons m r ih => simp [ih]

@[simp] lemma emits_nakAll (l : List Msg) : emits (nakAll l) = [] := by
  induction l with
  | nil => rfl
  | cons m r ih => simp [ih]

@[simp] lemma processCalls_nakAll (l : List Msg) : processCalls (nakAll l) = [] := by
  induction l with
  | nil => rfl
  | cons m r ih => simp [ih]

/-! ### The ack loop of `flush` -/

/-- When every pending ack succeeds, the ack loop acks each message in
order and reports success. -/
lemma ackLoop_all_ok (l : List Msg) (h : ∀ m ∈ l, m.ackOk = true) :
    ackLoop l = (l.map fun m => .ackCall m.id, true) := by
  induction l with
  | nil => rfl
  | cons m r ih =>
    have hm := h m (by simp)
    simp [ackLoop, hm, ih fun x hx => h x (by simp [hx])]

/-- When the first failing ack is that of `m`, the ack loop issues the ack
calls of the preceding messages and of `m`, then reports failure. -/
lemma ackLoop_first_fail (a : List Msg) (m : Msg) (b : List Msg)
    (ha : ∀ x ∈ a, x.ackOk = true) (hm : m.ackOk = false) :
    ackLoop (a ++ m :: b) = ((a.map fun x => .ackCall x.id) ++ [.ackCall m.id], false) := by
  induction a with
  | nil => simp [ackLoop, hm]
  | cons x r ih =>
    have hx := ha x (by simp)
    simp [ackLoop, hx, ih fun y hy => ha y (by simp [hy])]

/-! ### Concrete example inputs used by witnesses and counterexamples -/

/-- A message with the given id whose calls all succeed (payload irrelevant
to flush). -/
def exMsg (n : Nat) : Msg := { id := n, decoded := none }

/-- A message with the given id whose `Ack()` call returns an error. -/
def exMsgNoAck (n : Nat) : Msg := { id := n, decoded := none, ackOk := false }

/-- A configuration with a driver whose `Flush` always succeeds. -/
def exCfg : Cfg := { max := 3, maxBatchSize := 0 }

/-- A configuration with a driver whose `Flush` always fails with `"boom"`. -/
def exCfgFlushErr : Cfg := { max := 3, maxBatchSize := 0, flushResult := fun _ => some (.other "boom") }

@[simp] lemma ackIds_ackMap (l : List Msg) :
    ackIds (l.map fun m => .ackCall m.id) = msgIds l := by
  induction l with
  | nil => rfl
  | cons m r ih => simp [ih]

@[simp] lemma nakIds_ackMap (l : List Msg) :
    nakIds (l.map fun m => .ackCall m.id) = [] := by
  induction l with
  | nil => rfl
  | cons m r ih => simp [ih]

@[simp] lemma emits_ackMap (l : List Msg) :
    emits (l.map fun m => .ackCall m.id) = [] := by
  induction l with
  | nil => rfl
  | cons m r ih => simp [ih]

/-! ### Claims about `Consumer.flush` -/

/-- **C1.** In every invocation of `flush` in which `driver.Flush` returns
a non-nil error, no pending message is acked and every pending message is
naked; if the error is the `ErrDriverStopped` sentinel nothing is emitted
on the error channel, and for any other error exactly that error is
emitted. -/
theorem flush_driver_error_acks_none_naks_all (cfg : Cfg) (s : BufState) (e : FlushErr)
    (hd : cfg.hasDriver = true)
    (he : cfg.flushResult s.flushCount = some e) :
    ackIds (flush cfg s).2.1 = [] ∧
    nakIds (flush cfg s).2.1 = msgIds s.pending ∧
    (e = .driverStopped → emits (flush cfg s).2.1 = []) ∧
    (∀ msg, e = .other msg → emits (flush cfg s).2.1 = [msg]) := by
  cases e <;> simp [flush, hd, he]

/-- Witness for `flush_driver_error_acks_none_naks_all` at a concrete
two-message batch and the error `"boom"`. -/
theorem flush_driver_error_acks_none_naks_all_witness :
    ackIds (flush exCfgFlushErr
      { pending := [exMsg 7, exMsg 8], pendingStarted := some 0 }).2.1 = [] ∧
    nakIds (flush exCfgFlushErr
      { pending := [exMsg 7, exMsg 8], pendingStarted := some 0 }).2.1 =
      msgIds [exMsg 7, exMsg 8] ∧
    (FlushErr.other "boom" = .driverStopped →
      emits (flush exCfgFlushErr
        { pending := [exMsg 7, exMsg 8], pendingStarted := some 0 }).2.1 = []) ∧
    (∀ msg, FlushErr.other "boom" = .other msg →
      emits (flush exCfgFlushErr
        { pending := [exMsg 7, exMsg 8], pendingStarted := some 0 }).2.1 = [msg]) :=
  flush_driver_error_acks_none_naks_all _ _ (.other "boom") rfl rfl

/-- **C2, counterexample.** On a successful `driver.Flush` over the batch
`[msg 0 (ack succeeds), msg 1 (ack fails)]`, the code naks the ENTIRE
pending slice — including message 0, which was already acked — and emits
nothing on the error channel.  The claim says only the remaining
not-yet-acked messages are naked and that the ack error is emitted on the
error channel; both parts fail here. -/
theorem flush_ack_fail_naks_everything_counterexample :
    (flush exCfg
        { pending := [exMsg 0, exMsgNoAck 1], pendingStarted := some 0 }).2.1 =
      [.ackCall 0, .ackCall 1, .nakCall 0, .nakCall 1] ∧
    (0 : Nat) ∈ ackIds (flush exCfg
        { pending := [exMsg 0, exMsgNoAck 1], pendingStarted := some 0 }).2.1 ∧
    (0 : Nat) ∈ nakIds (flush exCfg
        { pending := [exMsg 0, exMsgNoAck 1], pendingStarted := some 0 }).2.1 ∧
    emits (flush exCfg
        { pending := [exMsg 0, exMsgNoAck 1], pendingStarted := some 0 }).2.1 = [] := by
  refine ⟨rfl, ?_, ?_, rfl⟩ <;> decide

/-- **C2 (amended).** When `driver.Flush` returns nil, the pending
messages are acked one by one in pending (arrival) order; if every ack
succeeds those acks are the whole trace, and if some ack fails, the acks
stop at the first failure and then the ENTIRE pending batch (already-acked
messages included) is naked, the ack error is NOT emitted on the error
channel (it is only logged), and the flush tells the dispatcher to stop. -/
theorem flush_success_acks_in_order (cfg : Cfg) (s : BufState)
    (hd : cfg.hasDriver = true)
    (he : cfg.flushResult s.flushCount = none) :
    ((∀ m ∈ s.pending, m.ackOk = true) →
      (flush cfg s).2.1 = s.pending.map fun m => .ackCall m.id) ∧
    (∀ a m b, s.pending = a ++ m :: b →
      (∀ x ∈ a, x.ackOk = true) → m.ackOk = false →
      (flush cfg s).2.1 =
        ((a.map fun x => .ackCall x.id) ++ [.ackCall m.id]) ++ nakAll s.pending ∧
      emits (flush cfg s).2.1 = [] ∧
      (flush cfg s).2.2 = true) := by
  constructor
  · intro ha
    simp [flush, hd, he, ackLoop_all_ok _ ha]
  · intro a m b hsplit ha hm
    have hh : ackLoop s.pending = ((a.map fun x => .ackCall x.id) ++ [.ackCall m.id], false) := by
      rw [hsplit]; exact ackLoop_first_fail a m b ha hm
    refine ⟨by simp [flush, hd, he, hh], by simp [flush, hd, he, hh], by simp [flush, hd, he, hh]⟩

/-- Witness for `flush_success_acks_in_order` at a concrete one-message
batch whose ack succeeds. -/
theorem flush_success_acks_in_order_witness :
    ((∀ m ∈ ({ pending := [exMsg 4], pendingStarted := some 0 } : BufState).pending,
        m.ackOk = true) →
      (flush exCfg { pending := [exMsg 4], pendingStarted := some 0 }).2.1 =
        ({ pending := [exMsg 4], pendingStarted := some 0 } : BufState).pending.map
          fun m => .ackCall m.id) ∧
    (∀ a m b, ({ pending := [exMsg 4], pendingStarted := some 0 } : BufState).pending =
        a ++ m :: b →
      (∀ x ∈ a, x.ackOk = true) → m.ackOk = false →
      (flush exCfg { pending := [exMsg 4], pendingStarted := some 0 }).2.1 =
        ((a.map fun x => .ackCall x.id) ++ [.ackCall m.id]) ++
          nakAll ({ pending := [exMsg 4], pendingStarted := some 0 } : BufState).pending ∧
      emits (flush exCfg { pending := [exMsg 4], pendingStarted := some 0 }).2.1 = [] ∧
      (flush exCfg { pending := [exMsg 4], pendingStarted := some 0 }).2.2 = true) :=
  flush_success_acks_in_order exCfg { pending := [exMsg 4], pendingStarted := some 0 } rfl rfl

/-- **C5.** After a successful flush (`driver.Flush` returned nil and every
per-message ack succeeded), the pending batch is empty and
`pendingStarted` is unset. -/
theorem flush_success_resets_pending (cfg : Cfg) (s : BufState)
    (hd : cfg.hasDriver = true)
    (he : cfg.flushResult s.flushCount = none)
    (ha : ∀ m ∈ s.pending, m.ackOk = true) :
    (flush cfg s).1.pending = [] ∧ (flush cfg s).1.pendingStarted = none := by
  simp [flush, hd, he, ackLoop_all_ok _ ha, clearPending]

/-- Witness for `flush_success_resets_pending` at a concrete one-message
batch. -/
theorem flush_success_resets_pending_witness :
    (flush exCfg { pending := [exMsg 5], pendingStarted := some 9 }).1.pending = [] ∧
    (flush exCfg { pending := [exMsg 5], pendingStarted := some 9 }).1.pendingStarted = none :=
  flush_success_resets_pending exCfg { pending := [exMsg 5], pendingStarted := some 9 }
    rfl rfl (by decide)

/-! ### Claims about the skip policy and the flush decision in `bufferer` -/

/-- A freshly appended message that was not already pending is removed
again exactly by the skip branch's removal loop. -/
lemma removeFirst_append_self (l : List Msg) (m : Msg) (h : m ∉ l) :
    removeFirst (l ++ [m]) m = l := by
  induction l with
  | nil => simp [removeFirst]
  | cons x r ih =>
    have hx : x ≠ m := by rintro rfl; exact h (by simp)
    simp [removeFirst, hx, ih fun hh => h (by simp [hh])]

/-- `shouldSkip` skips on the watermark check alone when a watermark exists
for the event's table and the event timestamp is strictly before it. -/
lemma shouldSkip_watermark (cfg : Cfg) (evt : DBChangeEvent)
    (tt : String → Option Time) (W : Time)
    (htt : cfg.tableTimestamps = some tt) (hw : tt evt.table = some W)
    (hts : evt.timestamp < W) :
    shouldSkip cfg evt = (true, evt) := by
  simp [shouldSkip, htt, hw, hts]

/-- `shouldSkip` skips when the watermark check does not fire but the
configured validator returns a non-nil error. -/
lemma shouldSkip_validator_error (cfg : Cfg) (evt : DBChangeEvent)
    (v : DBChangeEvent → ValidationResult) (e : String)
    (hwm : ∀ tt, cfg.tableTimestamps = some tt →
      ∀ W, tt evt.table = some W → ¬ evt.timestamp < W)
    (hv : cfg.validator = some v)
    (herr : (v evt).err = some e) :
    shouldSkip cfg evt = (true, evt) := by
  have hno : (match cfg.tableTimestamps with
      | none => false
      | some tt =>
        match tt evt.table with
        | none => false
        | some w => decide (evt.timestamp < w)) = false := by
    cases htt : cfg.tableTimestamps with
    | none => rfl
    | some tt =>
      cases hw : tt evt.table with
      | none => simp [hw]
      | some w =>
        have hle := hwm tt htt w hw
        simp [hw, hle]
  simp [shouldSkip, hno, hv, herr]

/-- **C4.** For every table with a watermark `W` in the consumer's
table-timestamp map, a decoded event on that table with
`timestamp < W` is acked immediately, removed from the pending batch
(which is left exactly as it was), and `driver.Process` is never called
on it: the iteration continues with state unchanged and the single action
`Ack`. -/
theorem watermark_skip_acks_and_never_processes (cfg : Cfg) (s : BufState)
    (msg : Msg) (evt : DBChangeEvent) (now : Time)
    (tt : String → Option Time) (W : Time)
    (hmeta : msg.metadataOk = true) (hdec : msg.decoded = some evt)
    (htt : cfg.tableTimestamps = some tt) (hw : tt evt.table = some W)
    (hts : evt.timestamp < W) (hfresh : msg ∉ s.pending) :
    step cfg s (.msgArrive msg now) = .cont s [.ackCall msg.id] := by
  simp [step, hmeta, hdec, shouldSkip_watermark cfg evt tt W htt hw hts,
    removeFirst_append_self s.pending msg hfresh]

/-- The spec's literal scenario 2: an `orders` event stamped just before
the `orders` watermark. -/
def exEvtOrders : DBChangeEvent :=
  { table := "orders", timestamp := 1699999999999,
    operation := "INSERT", modelVersion := "v1" }

/-- Watermark map `{orders ↦ 1_700_000_000_000}`. -/
def exWatermarks : String → Option Time :=
  fun t => if t = "orders" then some 1700000000000 else none

/-- Witness for `watermark_skip_acks_and_never_processes`: the spec's
literal scenario — watermark `{orders ↦ 1_700_000_000_000}`, event on
`orders` with timestamp `1_699_999_999_999`. -/
theorem watermark_skip_acks_and_never_processes_witness :
    step { max := 3, maxBatchSize := 0, tableTimestamps := some exWatermarks }
        initState (.msgArrive { id := 2, decoded := some exEvtOrders } 0) =
      .cont initState [.ackCall 2] :=
  watermark_skip_acks_and_never_processes _ _ _ exEvtOrders
    0 exWatermarks 1700000000000
    rfl rfl rfl (by decide) (by decide) (by decide)

/-- **C10.** If a schema validator is configured and returns a non-nil
error for a decoded event (whose table the watermark check lets through),
the event is treated exactly like a skip: the message is acked, the
pending batch is left as it was, `driver.Process` is not called, and
nothing is emitted on the error channel — the step's only action is the
`Ack` call. -/
theorem validator_error_acks_and_skips (cfg : Cfg) (s : BufState)
    (msg : Msg) (evt : DBChangeEvent) (now : Time)
    (v : DBChangeEvent → ValidationResult) (e : String)
    (hmeta : msg.metadataOk = true) (hdec : msg.decoded = some evt)
    (hwm : ∀ tt, cfg.tableTimestamps = some tt →
      ∀ W, tt evt.table = some W → ¬ evt.timestamp < W)
    (hv : cfg.validator = some v)
    (herr : (v evt).err = some e)
    (hfresh : msg ∉ s.pending) :
    step cfg s (.msgArrive msg now) = .cont s [.ackCall msg.id] := by
  simp [step, hmeta, hdec, shouldSkip_validator_error cfg evt v e hwm hv herr,
    removeFirst_append_self s.pending msg hfresh]

/-- An event on `orders` with timestamp 1. -/
def exEvtSmall : DBChangeEvent :=
  { table := "orders", timestamp := 1, operation := "INSERT", modelVersion := "v1" }

/-- A validator that always returns a non-nil error. -/
def exValidatorErr : DBChangeEvent → ValidationResult :=
  fun _ => { found := false, valid := false, path := "", err := some "schema fetch failed" }

/-- Witness for `validator_error_acks_and_skips`: a validator that always
errors, no watermark map. -/
theorem validator_error_acks_and_skips_witness :
    step { max := 3, maxBatchSize := 0, validator := some exValidatorErr }
        initState (.msgArrive { id := 3, decoded := some exEvtSmall } 0) =
      .cont initState [.ackCall 3] :=
  validator_error_acks_and_skips _ _ _ exEvtSmall
    0 exValidatorErr "schema fetch failed"
    rfl rfl (by intro tt htt; cases htt) rfl rfl (by decide)

/-- The dispatcher state right after a successful `driver.Process` call on
`msg`: the message has been appended to pending and one more process
result has been consumed. -/
def afterProcess (s : BufState) (msg : Msg) : BufState :=
  { s with pending := s.pending ++ [msg], processCount := s.processCount + 1 }

/-- **C6.** For a message handed to `driver.Process`: the effective batch
cap equals `driver.MaxBatchSize()` when that is positive and `c.max`
(= `maxAckPending`) otherwise; and whenever `Process` returns
`flushHint = true`, or the pending batch has reached the cap after this
event, `flush` is invoked immediately within the same iteration — the
iteration's trace is exactly the `Process` call followed by the flush's
actions, and the driver's flush-call counter advances by one. -/
theorem flush_decision_immediate (cfg : Cfg) (s : BufState) (msg : Msg)
    (evt0 : DBChangeEvent) (now : Time) (flushHint : Bool)
    (hmeta : msg.metadataOk = true) (hdec : msg.decoded = some evt0)
    (hskip : (shouldSkip cfg evt0).1 = false)
    (hproc : cfg.processResult s.processCount = .ok flushHint)
    (hd : cfg.hasDriver = true)
    (hcond : flushHint = true ∨ (s.pending.length : Int) + 1 ≥ effectiveMaxBatch cfg) :
    effectiveMaxBatch cfg =
      (if 0 < cfg.maxBatchSize then cfg.maxBatchSize else (cfg.max : Int)) ∧
    (flush cfg (afterProcess s msg)).1.flushCount = s.flushCount + 1 ∧
    step cfg s (.msgArrive msg now) =
      (if (flush cfg (afterProcess s msg)).2.2 then
        StepOut.stop (flush cfg (afterProcess s msg)).1
          (.processCall msg.id (shouldSkip cfg evt0).2 :: (flush cfg (afterProcess s msg)).2.1)
      else
        StepOut.cont (flush cfg (afterProcess s msg)).1
          (.processCall msg.id (shouldSkip cfg evt0).2 :: (flush cfg (afterProcess s msg)).2.1)) := by
  refine ⟨by simp only [effectiveMaxBatch]; split <;> split <;> omega, ?_, ?_⟩
  · simp only [flush, hd, Bool.not_true, Bool.false_eq_true, if_false]
    cases hf : cfg.flushResult (afterProcess s msg).flushCount with
    | none =>
      simp only [hf]
      split <;> simp [clearPending, afterProcess]
    | some e => cases e <;> simp [hf, clearPending, afterProcess]
  · have hcond2 : flushHint = true ∨
        ((s.pending ++ [msg]).length : Int) ≥ effectiveMaxBatch cfg := by
      rcases hcond with h | h
      · exact Or.inl h
      · right; simpa using h
    simp only [step, hmeta, Bool.not_true, Bool.false_eq_true, if_false, hdec]
    rw [if_neg (by simp [hskip])]
    simp only [hproc]
    rw [if_pos hcond2]
    rfl

/-- A driver whose `Process` always returns `flushHint = true`. -/
def exCfgHint : Cfg := { max := 3, maxBatchSize := 0, processResult := fun _ => .ok true }

/-- A message carrying the small `orders` event. -/
def exMsgEvt : Msg := { id := 9, decoded := some exEvtSmall }

/-- Witness for `flush_decision_immediate`: the spec's literal scenario 1 —
`flushHint = true` on event #1 makes the consumer flush after exactly one
`Process`. -/
theorem flush_decision_immediate_witness :
    effectiveMaxBatch exCfgHint =
      (if 0 < exCfgHint.maxBatchSize then exCfgHint.maxBatchSize else (exCfgHint.max : Int)) ∧
    (flush exCfgHint (afterProcess initState exMsgEvt)).1.flushCount = initState.flushCount + 1 ∧
    step exCfgHint initState (.msgArrive exMsgEvt 0) =
      (if (flush exCfgHint (afterProcess initState exMsgEvt)).2.2 then
        StepOut.stop (flush exCfgHint (afterProcess initState exMsgEvt)).1
          (.processCall exMsgEvt.id (shouldSkip exCfgHint exEvtSmall).2 ::
            (flush exCfgHint (afterProcess initState exMsgEvt)).2.1)
      else
        StepOut.cont (flush exCfgHint (afterProcess initState exMsgEvt)).1
          (.processCall exMsgEvt.id (shouldSkip exCfgHint exEvtSmall).2 ::
            (flush exCfgHint (afterProcess initState exMsgEvt)).2.1)) :=
  flush_decision_immediate exCfgHint initState exMsgEvt exEvtSmall 0 true
    rfl rfl rfl rfl rfl (Or.inl rfl)

/-! ### Pause and Unpause -/

/-- The consumer fields relevant to the pause lifecycle: the batch fields,
`pauseStarted`, and whether `c.subscriber != nil`. -/
structure ConsumerState where
  pending : List Msg
  pendingStarted : Option Time
  pauseStarted : Option Time := none
  subscriber : Bool
  stopping : Bool := false
  deriving Repr

/-- `Consumer.Pause` (consumer.go lines 439–446): drain the subscription
(`c.subscriber.Drain()` — a nil subscriber would be a nil dereference, so
the model requires one), drop the subscriber, and set `pauseStarted` to
now.  No flush is performed and no other field is touched. -/
def Pause (now : Time) (c : ConsumerState) : Option ConsumerState :=
  if c.subscriber then
    some { c with subscriber := false, pauseStarted := some now }
  else none

/-- `Consumer.Unpause` (consumer.go lines 448–468): error when a subscriber
already exists; re-subscribe (`subscribeOk` is whether `jsconn.Consume`
succeeds) and clear `pauseStarted`.  No other field is touched. -/
def Unpause (subscribeOk : Bool) (c : ConsumerState) : Except String ConsumerState :=
  if c.subscriber then .error "consumer already started"
  else if !subscribeOk then .error "error starting jetstream consumer"
  else .ok { c with subscriber := true, pauseStarted := none }

/-- The batch-state view of a consumer, as `flush` sees it. -/
def ConsumerState.toBuf (c : ConsumerState) : BufState :=
  { pending := c.pending, pendingStarted := c.pendingStarted, stopping := c.stopping }

/-- **C8.** `Pause` immediately followed by a successful `Unpause` leaves
the pending batch and `pendingStarted` unchanged: `Pause` only drops the
subscriber and sets `pauseStarted`, `Unpause` only restores the subscriber
and clears `pauseStarted`, so the composite returns the consumer to its
original state except that `pauseStarted` is cleared — and a subsequent
successful flush acks exactly the batch that was pending before `Pause`. -/
theorem pause_unpause_preserves_pending (c : ConsumerState) (now : Time)
    (hsub : c.subscriber = true) :
    ∃ cp, Pause now c = some cp ∧
      cp.pending = c.pending ∧ cp.pendingStarted = c.pendingStarted ∧
      cp.stopping = c.stopping ∧ cp.subscriber = false ∧ cp.pauseStarted = some now ∧
      Unpause true cp = .ok { c with pauseStarted := none } ∧
      (∀ cfg : Cfg, cfg.hasDriver = true →
        cfg.flushResult ({ c with pauseStarted := none } : ConsumerState).toBuf.flushCount = none →
        (∀ m ∈ c.pending, m.ackOk = true) →
        (flush cfg ({ c with pauseStarted := none } : ConsumerState).toBuf).2.1 =
          c.pending.map fun m => .ackCall m.id) := by
  have hp : Pause now c = some { c with subscriber := false, pauseStarted := some now } := by
    unfold Pause
    rw [hsub]
    rfl
  refine ⟨{ c with subscriber := false, pauseStarted := some now },
    hp, rfl, rfl, rfl, rfl, rfl, by simp [Unpause, hsub], ?_⟩
  intro cfg hd hf ha
  have hf0 : cfg.flushResult 0 = none := hf
  simp [flush, hd, hf0, ConsumerState.toBuf, ackLoop_all_ok _ ha]

/-- A running consumer with one pending message. -/
def exConsumerRunning : ConsumerState :=
  { pending := [exMsg 6], pendingStarted := some 5, subscriber := true }

/-- Witness for `pause_unpause_preserves_pending` on a running consumer
with one pending message. -/
theorem pause_unpause_preserves_pending_witness :
    ∃ cp, Pause 7 exConsumerRunning = some cp ∧
      cp.pending = exConsumerRunning.pending ∧
      cp.pendingStarted = exConsumerRunning.pendingStarted ∧
      cp.stopping = exConsumerRunning.stopping ∧
      cp.subscriber = false ∧ cp.pauseStarted = some 7 ∧
      Unpause true cp = .ok { exConsumerRunning with pauseStarted := none } ∧
      (∀ cfg : Cfg, cfg.hasDriver = true →
        cfg.flushResult ({ exConsumerRunning with pauseStarted := none } :
          ConsumerState).toBuf.flushCount = none →
        (∀ m ∈ exConsumerRunning.pending, m.ackOk = true) →
        (flush cfg ({ exConsumerRunning with pauseStarted := none } :
          ConsumerState).toBuf).2.1 =
          exConsumerRunning.pending.map fun m => .ackCall m.id) :=
  pause_unpause_preserves_pending exConsumerRunning 7 rfl

/-! ### `CreateConsumer`: delivery-policy selection -/

/-- The jetstream delivery policies the code uses. -/
inductive DeliverPolicy where
  | all
  | byStartTime
  | new
  deriving DecidableEq, Repr

/-- The fields of `jetstream.ConsumerConfig` the code sets (subjects and
policies that are constants are kept as their configurable inputs). -/
structure JsConsumerConfig where
  durable : String
  maxAckPending : Int
  maxDeliver : Int
  maxRequestBatch : Int
  deliverPolicy : DeliverPolicy
  optStartTime : Option Time
  deriving DecidableEq, Repr

/-- One iteration of the `startAt` selection loop in `CreateConsumer`
(lines 516–521): `if ts != nil && (startAt == nil || ts.Before(*startAt))
{ startAt = ts }`. -/
def startAtStep (startAt : Option Time) (p : String × Option Time) : Option Time :=
  match p.2 with
  | none => startAt
  | some ts =>
    match startAt with
    | none => some ts
    | some a => if ts < a then some ts else some a

/-- The `startAt` computed by `CreateConsumer` from
`config.ExportTableTimestamps` (`none` models a nil map; entries with a
nil `*time.Time` value carry `none`). -/
def computeStartAt (timestamps : Option (List (String × Option Time))) : Option Time :=
  match timestamps with
  | none => none
  | some l => l.foldl startAtStep none

/-- The delivery policy and start time `CreateConsumer` installs
(lines 586–615): with no existing durable consumer, `deliverAll` wins,
then a computed `startAt`, then deliver-new; with an existing consumer the
cached policy and start time are copied verbatim. -/
def configureDeliverPolicy (deliverAll : Bool) (startAt : Option Time)
    (existing : Option (DeliverPolicy × Option Time)) : DeliverPolicy × Option Time :=
  match existing with
  | none =>
    if deliverAll then (.all, none)
    else
      match startAt with
      | some t => (.byStartTime, some t)
      | none => (.new, none)
  | some pe => pe

/-- The `jetstream.ConsumerConfig` finally passed to `CreateConsumer` /
`UpdateConsumer`: the freshly computed base fields with the delivery
policy chosen above. -/
def createConsumerConfig (base : JsConsumerConfig) (deliverAll : Bool)
    (timestamps : Option (List (String × Option Time)))
    (existing : Option (DeliverPolicy × Option Time)) : JsConsumerConfig :=
  let pe := configureDeliverPolicy deliverAll (computeStartAt timestamps) existing
  { base with deliverPolicy := pe.1, optStartTime := pe.2 }

/-- If the fold of the `startAt` loop produces a time, that time is the
accumulator or one of the non-nil map values. -/
lemma startAtFold_mem (l : List (String × Option Time)) (acc : Option Time) (t : Time)
    (h : l.foldl startAtStep acc = some t) :
    acc = some t ∨ ∃ k, (k, some t) ∈ l := by
  induction l generalizing acc with
  | nil => exact Or.inl h
  | cons p r ih =>
    rcases ih (startAtStep acc p) h with h1 | h1
    · obtain ⟨k, u⟩ := p
      cases u with
      | none => exact Or.inl h1
      | some ts =>
        cases acc with
        | none =>
          right
          refine ⟨k, ?_⟩
          simp only [startAtStep] at h1
          obtain rfl : ts = t := by simpa using h1
          simp
        | some a =>
          simp only [startAtStep] at h1
          by_cases hlt : ts < a
          · rw [if_pos hlt] at h1
            obtain rfl : ts = t := by simpa using h1
            exact Or.inr ⟨k, by simp⟩
          · rw [if_neg hlt] at h1
            exact Or.inl (by simpa using h1)
    · obtain ⟨k, hk⟩ := h1
      exact Or.inr ⟨k, by simp [hk]⟩

/-- The fold of the `startAt` loop is a lower bound of the accumulator and
of every non-nil map value. -/
lemma startAtFold_le (l : List (String × Option Time)) (acc : Option Time) (t : Time)
    (h : l.foldl startAtStep acc = some t) :
    (∀ a, acc = some a → t ≤ a) ∧ (∀ k u, (k, some u) ∈ l → t ≤ u) := by
  induction l generalizing acc with
  | nil =>
    refine ⟨fun a ha => ?_, fun k u hk => absurd hk (by simp)⟩
    rw [ha] at h
    simp only [List.foldl_nil, Option.some.injEq] at h
    exact le_of_eq h.symm
  | cons p r ih =>
    obtain ⟨ihacc, ihl⟩ := ih (startAtStep acc p) h
    obtain ⟨k0, u0⟩ := p
    constructor
    · intro a ha
      subst ha
      cases u0 with
      | none => exact ihacc a rfl
      | some ts =>
        by_cases hlt : ts < a
        · exact le_trans (ihacc ts (by simp [startAtStep, hlt])) (le_of_lt hlt)
        · exact ihacc a (by simp [startAtStep, hlt])
    · intro k u hk
      rcases List.mem_cons.mp hk with heq | hmem
      · injection heq with h1 h2
        subst h2
        cases acc with
        | none => exact ihacc u (by simp [startAtStep])
        | some a =>
          by_cases hlt : u < a
          · exact ihacc u (by simp [startAtStep, hlt])
          · exact le_trans (ihacc a (by simp [startAtStep, hlt])) (not_lt.mp hlt)
      · exact ihl k u hmem

/-- If the fold of the `startAt` loop produces nothing, the accumulator was
empty and no map value is non-nil. -/
lemma startAtFold_none (l : List (String × Option Time)) (acc : Option Time)
    (h : l.foldl startAtStep acc = none) :
    acc = none ∧ ∀ k u, (k, some u) ∈ l → False := by
  induction l generalizing acc with
  | nil => exact ⟨h, fun k u hk => absurd hk (by simp)⟩
  | cons p r ih =>
    obtain ⟨hstep, hr⟩ := ih (startAtStep acc p) h
    obtain ⟨k0, u0⟩ := p
    cases u0 with
    | none =>
      refine ⟨hstep, fun k u hk => ?_⟩
      rcases List.mem_cons.mp hk with heq | hmem
      · injection heq with h1 h2
        exact Option.noConfusion h2
      · exact hr k u hmem
    | some ts =>
      exfalso
      cases acc with
      | none => simp [startAtStep] at hstep
      | some a =>
        by_cases hlt : ts < a
        · simp [startAtStep, hlt] at hstep
        · simp [startAtStep, hlt] at hstep

/-- **C7.** Delivery-policy selection of `CreateConsumer`.  When the
durable consumer does not yet exist: `deliverAll` forces deliver-all;
otherwise, if any watermark is present in `exportTableTimestamps` the
policy is deliver-by-start-time at the EARLIEST watermark across all
tables (it is a watermark of some table and is ≤ every other watermark);
otherwise deliver-new.  When the durable consumer exists, the stored
policy and start time are preserved verbatim (`deliverAll` is ignored)
while the remaining configuration fields are the freshly computed ones. -/
theorem create_consumer_policy (base : JsConsumerConfig) (deliverAll : Bool)
    (timestamps : Option (List (String × Option Time)))
    (existing : Option (DeliverPolicy × Option Time)) :
    (existing = none → deliverAll = true →
      (createConsumerConfig base deliverAll timestamps existing).deliverPolicy = .all) ∧
    (existing = none → deliverAll = false → ∀ t, computeStartAt timestamps = some t →
      (createConsumerConfig base deliverAll timestamps existing).deliverPolicy = .byStartTime ∧
      (createConsumerConfig base deliverAll timestamps existing).optStartTime = some t) ∧
    (existing = none → deliverAll = false → computeStartAt timestamps = none →
      (createConsumerConfig base deliverAll timestamps existing).deliverPolicy = .new) ∧
    (∀ t, computeStartAt timestamps = some t →
      ∃ l, timestamps = some l ∧ (∃ k, (k, some t) ∈ l) ∧
        ∀ k u, (k, some u) ∈ l → t ≤ u) ∧
    (∀ l, timestamps = some l → computeStartAt timestamps = none →
      ∀ k u, (k, some u) ∈ l → False) ∧
    (∀ p ost, existing = some (p, ost) →
      (createConsumerConfig base deliverAll timestamps existing).deliverPolicy = p ∧
      (createConsumerConfig base deliverAll timestamps existing).optStartTime = ost ∧
      (createConsumerConfig base deliverAll timestamps existing).durable = base.durable ∧
      (createConsumerConfig base deliverAll timestamps existing).maxAckPending =
        base.maxAckPending ∧
      (createConsumerConfig base deliverAll timestamps existing).maxDeliver = base.maxDeliver ∧
      (createConsumerConfig base deliverAll timestamps existing).maxRequestBatch =
        base.maxRequestBatch) := by
  refine ⟨?_, ?_, ?_, ?_, ?_, ?_⟩
  · rintro rfl hda
    simp [createConsumerConfig, configureDeliverPolicy, hda]
  · rintro rfl hda t ht
    simp [createConsumerConfig, configureDeliverPolicy, hda, ht]
  · rintro rfl hda ht
    simp [createConsumerConfig, configureDeliverPolicy, hda, ht]
  · intro t ht
    cases hts : timestamps with
    | none => rw [hts] at ht; exact Option.noConfusion ht
    | some l =>
      rw [hts] at ht
      simp only [computeStartAt] at ht
      refine ⟨l, rfl, ?_, (startAtFold_le l none t ht).2⟩
      rcases startAtFold_mem l none t ht with h | h
      · exact Option.noConfusion h
      · exact h
  · intro l hl hn k u hk
    rw [hl] at hn
    simp only [computeStartAt] at hn
    exact (startAtFold_none l none hn).2 k u hk
  · rintro p ost rfl
    simp [createConsumerConfig, configureDeliverPolicy]

/-! ### The `pendingStarted` dereference in the empty-buffer branch -/

/-- The invariant protecting the `*c.pendingStarted` dereference: whenever
the pending batch is non-empty, `pendingStarted` has been set. -/
def StartedInv (s : BufState) : Prop := s.pending ≠ [] → s.pendingStarted ≠ none

/-- With a driver present, every `flush` path goes through
`nackEverything` or the reset at the end, so the resulting state has an
empty pending batch and no `pendingStarted`. -/
lemma flush_state_clears (cfg : Cfg) (s : BufState) (hd : cfg.hasDriver = true) :
    (flush cfg s).1.pending = [] ∧ (flush cfg s).1.pendingStarted = none := by
  simp only [flush, hd, Bool.not_true, Bool.false_eq_true, if_false]
  cases hf : cfg.flushResult s.flushCount with
  | none => by_cases hb : (ackLoop s.pending).2 = true <;> simp [hb, clearPending]
  | some e => cases e <;> simp [clearPending]

lemma startedInv_clear (s : BufState) : StartedInv (clearPending s) :=
  fun h => absurd rfl h

lemma startedInv_flush (cfg : Cfg) (s : BufState) (hd : cfg.hasDriver = true) :
    StartedInv (flush cfg s).1 := by
  intro h
  rw [(flush_state_clears cfg s hd).1] at h
  exact absurd rfl h

lemma startedInv_of_some (s : BufState) (t : Time) (h : s.pendingStarted = some t) :
    StartedInv s := by
  intro _
  rw [h]
  exact Option.noConfusion

/-- What the dispatcher guarantees after one iteration: it did not panic,
and the state it continues from (or leaves behind) satisfies the
invariant again. -/
def stepOutOk (r : StepOut) : Prop :=
  match r with
  | .panicked _ => False
  | .cont s _ => StartedInv s
  | .stop s _ => StartedInv s

/-- One iteration of the dispatcher, run with a driver from a state
satisfying the invariant, never dereferences a nil `pendingStarted` and
re-establishes the invariant. -/
lemma stepOut_ok (cfg : Cfg) (s : BufState) (i : Input)
    (hd : cfg.hasDriver = true) (hinv : StartedInv s) :
    stepOutOk (step cfg s i) := by
  cases i with
  | ctxDone => exact startedInv_clear s
  | msgArrive msg now =>
    by_cases hmeta : msg.metadataOk
    case neg =>
      simp only [step, hmeta, Bool.not_false, if_true]
      exact startedInv_clear s
    case pos =>
      simp only [step, hmeta, Bool.not_true, Bool.false_eq_true, if_false]
      cases hdec : msg.decoded with
      | none => exact startedInv_clear _
      | some evt0 =>
        simp only []
        by_cases hskip : (shouldSkip cfg evt0).1
        · rw [if_pos hskip]
          intro hne
          by_cases hp : s.pending = []
          · exfalso
            apply hne
            simp [hp, removeFirst]
          · exact hinv hp
        · rw [if_neg hskip]
          cases hproc : cfg.processResult
              ({ s with pending := s.pending ++ [msg] } : BufState).processCount with
          | error e => exact startedInv_clear _
          | ok flushHint =>
            simp only []
            split
            · split
              · exact startedInv_flush cfg _ hd
              · exact startedInv_flush cfg _ hd
            · split
              · exact startedInv_of_some _ _ rfl
              · split
                · split
                  · exact startedInv_flush cfg _ hd
                  · exact startedInv_flush cfg _ hd
                · exact startedInv_of_some _ _ rfl
  | bufferEmpty now ctxDoneLater =>
    simp only [step]
    split
    case isTrue hcnt =>
      cases hps : s.pendingStarted with
      | none =>
        exfalso
        have hne : s.pending ≠ [] := by
          intro hp
          rw [hp] at hcnt
          simp at hcnt
        exact hinv hne hps
      | some ps =>
        simp only []
        split
        · split
          · exact startedInv_flush cfg _ hd
          · exact startedInv_flush cfg _ hd
        · exact hinv
    case isFalse =>
      split
      · exact hinv
      · split
        · exact startedInv_clear s
        · exact hinv

/-- Helper for the run-level induction: from any state satisfying the
invariant, the dispatcher never panics and ends (when it ends without
stopping) in a state satisfying the invariant. -/
lemma run_no_panic_aux (cfg : Cfg) (hd : cfg.hasDriver = true) :
    ∀ (inputs : List Input) (s : BufState), StartedInv s →
      (∀ as, run cfg s inputs ≠ .panicked as) ∧
      (∀ s' as st, run cfg s inputs = .ok s' as st → StartedInv s') := by
  intro inputs
  induction inputs with
  | nil =>
    intro s hs
    constructor
    · intro as h
      exact RunOut.noConfusion h
    · intro s' as st h
      simp only [run] at h
      simp only [RunOut.ok.injEq] at h
      obtain ⟨rfl, -, -⟩ := h
      exact hs
  | cons i rest ih =>
    intro s hs
    have hstep := stepOut_ok cfg s i hd hs
    cases hout : step cfg s i with
    | panicked as =>
      rw [hout] at hstep
      exact absurd hstep not_false
    | stop s2 as =>
      rw [hout] at hstep
      constructor
      · intro as2 h
        simp only [run, hout] at h
        exact RunOut.noConfusion h
      · intro s3 as3 st h
        simp only [run, hout, RunOut.ok.injEq] at h
        obtain ⟨rfl, -, -⟩ := h
        exact hstep
    | cont s2 as =>
      rw [hout] at hstep
      obtain ⟨hnp, hok⟩ := ih s2 hstep
      constructor
      · intro as2 h
        simp only [run, hout] at h
        cases hr : run cfg s2 rest with
        | ok s4 as4 st4 =>
          rw [hr] at h
          simp at h
        | panicked as4 =>
          exact hnp as4 hr
      · intro s3 as3 st h
        simp only [run, hout] at h
        cases hr : run cfg s2 rest with
        | ok s4 as4 st4 =>
          rw [hr] at h
          simp only [RunOut.ok.injEq] at h
          obtain ⟨rfl, -, -⟩ := h
          exact hok s4 as4 st4 hr
        | panicked as4 =>
          rw [hr] at h
          simp at h

/-- **C9.** Starting from the initial dispatcher state, for every sequence
of scheduling inputs the dispatcher never performs the nil
`*c.pendingStarted` dereference (the only syntactically possible one, in
the empty-buffer latency check, is modelled as the `panicked` outcome);
the loop maintains the invariant that a non-empty pending batch implies a
set `pendingStarted`. -/
theorem dispatcher_no_nil_deref (cfg : Cfg) (inputs : List Input)
    (hd : cfg.hasDriver = true) :
    (∀ as, run cfg initState inputs ≠ .panicked as) ∧
    (∀ s' as st, run cfg initState inputs = .ok s' as st → StartedInv s') :=
  run_no_panic_aux cfg hd inputs initState fun hne => absurd rfl hne

/-- Witness for `dispatcher_no_nil_deref`: one message followed by two
empty-buffer polls. -/
theorem dispatcher_no_nil_deref_witness :
    (∀ as, run exCfg initState
        [.msgArrive exMsgEvt 0, .bufferEmpty 100 false, .bufferEmpty 5000 false] ≠
      .panicked as) ∧
    (∀ s' as st, run exCfg initState
        [.msgArrive exMsgEvt 0, .bufferEmpty 100 false, .bufferEmpty 5000 false] =
      .ok s' as st → StartedInv s') :=
  dispatcher_no_nil_deref exCfg
    [.msgArrive exMsgEvt 0, .bufferEmpty 100 false, .bufferEmpty 5000 false] rfl

/-! ### No message is both acked and naked -/

/-- The ids of the current pending batch. -/
def pendingIds (s : BufState) : List Nat := msgIds s.pending

/-- The message id an input introduces (only a buffer receive does). -/
def inputIds : Input → List Nat
  | .msgArrive m _ => [m.id]
  | _ => []

/-- The ids of all messages delivered by a list of inputs, in order. -/
def arriveIds : List Input → List Nat
  | [] => []
  | i :: r => inputIds i ++ arriveIds r

/-- The message delivered by this input (if any) has a succeeding `Ack`. -/
def InputAcksOk : Input → Prop
  | .msgArrive m _ => m.ackOk = true
  | _ => True

/-- The action trace of a dispatcher run, whether it ended normally or in a
panic. -/
def traceOf : RunOut → List Action
  | .ok _ t _ => t
  | .panicked t => t

@[simp] lemma ackIds_singleton_ack (n : Nat) : ackIds [Action.ackCall n] = [n] := rfl
@[simp] lemma nakIds_singleton_ack (n : Nat) : nakIds [Action.ackCall n] = [] := rfl

/-- When every pending ack succeeds, a flush invocation acks only pending
ids, naks only pending ids, never both (one of the two sets is empty), and
either clears the batch or (driver absent) leaves the state untouched
while doing nothing. -/
lemma flush_facts (cfg : Cfg) (s : BufState)
    (hall : ∀ m ∈ s.pending, m.ackOk = true) :
    (ackIds (flush cfg s).2.1 = [] ∨ nakIds (flush cfg s).2.1 = []) ∧
    ackIds (flush cfg s).2.1 ⊆ msgIds s.pending ∧
    nakIds (flush cfg s).2.1 ⊆ msgIds s.pending ∧
    ((flush cfg s).1.pending = [] ∨ ((flush cfg s).1 = s ∧ (flush cfg s).2.1 = [])) ∧
    ((flush cfg s).2.2 = false → nakIds (flush cfg s).2.1 = []) := by
  by_cases hd : cfg.hasDriver
  · simp only [flush, hd, Bool.not_true, Bool.false_eq_true, if_false]
    cases hf : cfg.flushResult s.flushCount with
    | none =>
      rw [ackLoop_all_ok s.pending hall]
      simp [clearPending]
    | some e => cases e <;> simp [clearPending]
  · simp only [Bool.not_eq_true] at hd
    simp [flush, hd]

/-- Appending a fresh message id keeps the pending ids duplicate-free. -/
lemma nodup_pending_append (l : List Nat) (n : Nat)
    (hpn : l.Nodup) (hfresh : n ∉ l) : (l ++ [n]).Nodup := by
  simp [List.nodup_append, hpn, hfresh, List.disjoint_singleton]

/-- A stopping iteration that ends in a flush (possibly after a `Process`
call, `pre`): its acks and naks never share an id and both stay within the
batch that was pending. -/
lemma flush_leaf_stop (cfg : Cfg) (sf : BufState) (allowed : List Nat) (pre : List Action)
    (hall : ∀ m ∈ sf.pending, m.ackOk = true)
    (hsub : msgIds sf.pending ⊆ allowed)
    (hpreA : ackIds pre = []) (hpreN : nakIds pre = []) :
    (ackIds (pre ++ (flush cfg sf).2.1)).Disjoint (nakIds (pre ++ (flush cfg sf).2.1)) ∧
    ackIds (pre ++ (flush cfg sf).2.1) ⊆ allowed ∧
    nakIds (pre ++ (flush cfg sf).2.1) ⊆ allowed := by
  obtain ⟨hor, hack, hnak, -, -⟩ := flush_facts cfg sf hall
  refine ⟨?_, ?_, ?_⟩
  · rcases hor with h | h <;>
      simp [hpreA, hpreN, h, List.Disjoint]
  · simp only [ackIds_append, hpreA, List.nil_append]
    exact hack.trans hsub
  · simp only [nakIds_append, hpreN, List.nil_append]
    exact hnak.trans hsub

/-- A continuing iteration that ends in a flush: it naks nothing, acks only
ids of the flushed batch, and leaves a pending batch whose ids are fresh
relative to those acks, distinct, ack-able, and within the allowed set. -/
lemma flush_leaf_cont (cfg : Cfg) (sf : BufState) (allowed : List Nat) (pre : List Action)
    (hall : ∀ m ∈ sf.pending, m.ackOk = true)
    (hsub : msgIds sf.pending ⊆ allowed)
    (hnd : (msgIds sf.pending).Nodup)
    (hret : (flush cfg sf).2.2 = false)
    (hpreA : ackIds pre = []) (hpreN : nakIds pre = []) :
    nakIds (pre ++ (flush cfg sf).2.1) = [] ∧
    ackIds (pre ++ (flush cfg sf).2.1) ⊆ allowed ∧
    (ackIds (pre ++ (flush cfg sf).2.1)).Disjoint (pendingIds (flush cfg sf).1) ∧
    pendingIds (flush cfg sf).1 ⊆ allowed ∧
    (pendingIds (flush cfg sf).1).Nodup ∧
    (∀ m ∈ (flush cfg sf).1.pending, m.ackOk = true) := by
  obtain ⟨hor, hack, hnak, hst, hretnak⟩ := flush_facts cfg sf hall
  have hnaks : nakIds (pre ++ (flush cfg sf).2.1) = [] := by
    simp [hpreN, hretnak hret]
  refine ⟨hnaks, ?_, ?_, ?_, ?_, ?_⟩
  · simp only [ackIds_append, hpreA, List.nil_append]
    exact hack.trans hsub
  · rcases hst with h | h
    · simp [pendingIds, h, List.Disjoint]
    · simp [hpreA, h.2, List.Disjoint]
  · rcases hst with h | h
    · simp [pendingIds, h]
    · rw [h.1]; exact hsub
  · rcases hst with h | h
    · simp [pendingIds, h]
    · rw [h.1]; exact hnd
  · rcases hst with h | h
    · rw [h]; intro m hm; exact absurd hm (List.not_mem_nil m)
    · rw [h.1]; exact hall

/-- What one dispatcher iteration guarantees about acknowledgement calls
when message ids are distinct and every ack succeeds: a panic carries no
actions; a continuing iteration issues no naks, acks only allowed ids no
longer pending, and keeps the pending ids distinct, ack-able and within
the allowed ids; a stopping iteration never acks and naks the same id. -/
def StepFacts (allowed : List Nat) : StepOut → Prop
  | .panicked as => as = []
  | .cont s2 as =>
      nakIds as = [] ∧
      ackIds as ⊆ allowed ∧
      (ackIds as).Disjoint (pendingIds s2) ∧
      pendingIds s2 ⊆ allowed ∧
      (pendingIds s2).Nodup ∧
      (∀ m ∈ s2.pending, m.ackOk = true)
  | .stop _ as =>
      (ackIds as).Disjoint (nakIds as) ∧
      ackIds as ⊆ allowed ∧
      nakIds as ⊆ allowed

lemma step_facts (cfg : Cfg) (s : BufState) (i : Input)
    (hpn : (pendingIds s).Nodup)
    (hpa : ∀ m ∈ s.pending, m.ackOk = true)
    (hia : InputAcksOk i)
    (hfresh : ∀ n ∈ inputIds i, n ∉ pendingIds s) :
    StepFacts (pendingIds s ++ inputIds i) (step cfg s i) := by
  cases i with
  | ctxDone =>
    simp only [step]
    refine ⟨by simp [List.Disjoint], by simp, ?_⟩
    simp [pendingIds, inputIds]
  | bufferEmpty now ctxDoneLater =>
    simp only [step]
    split
    · cases hps : s.pendingStarted with
      | none => rfl
      | some ps =>
        simp only []
        split
        · split
          case isTrue hret =>
            exact flush_leaf_stop cfg s _ [] hpa (by simp [pendingIds, inputIds]) rfl rfl
          case isFalse hret =>
            exact flush_leaf_cont cfg s _ [] hpa (by simp [pendingIds, inputIds]) hpn
              ((Bool.not_eq_true _) ▸ hret) rfl rfl
        · exact ⟨rfl, by simp, by simp [List.Disjoint], by simp, hpn, hpa⟩
    · split
      · exact ⟨rfl, by simp, by simp [List.Disjoint], by simp, hpn, hpa⟩
      · split
        · refine ⟨by simp [List.Disjoint], by simp, ?_⟩
          simp [pendingIds, inputIds]
        · exact ⟨rfl, by simp, by simp [List.Disjoint], by simp, hpn, hpa⟩
  | msgArrive msg now =>
    have hmid : msg.id ∉ pendingIds s := hfresh msg.id (by simp [inputIds])
    have hmnotmem : msg ∉ s.pending := fun hmem => hmid (List.mem_map_of_mem Msg.id hmem)
    have hm : msg.ackOk = true := hia
    have hall2 : ∀ m ∈ s.pending ++ [msg], m.ackOk = true := by
      intro m hm2
      rcases List.mem_append.mp hm2 with h | h
      · exact hpa m h
      · rw [List.mem_singleton.mp h]; exact hm
    have hids2 : msgIds (s.pending ++ [msg]) = pendingIds s ++ [msg.id] := by
      simp [pendingIds]
    have hn2 : (msgIds (s.pending ++ [msg])).Nodup := by
      rw [hids2]; exact nodup_pending_append _ _ hpn hmid
    have hsub2 : msgIds (s.pending ++ [msg]) ⊆ pendingIds s ++ inputIds (.msgArrive msg now) := by
      rw [hids2]; simp [inputIds]
    by_cases hmeta : msg.metadataOk
    case neg =>
      simp only [step, hmeta, Bool.not_false, if_true]
      refine ⟨by simp [List.Disjoint], by simp, ?_⟩
      simp only [nakIds_append, nakIds_nakAll, nakIds_cons, List.append_nil]
      intro a ha
      simp only [inputIds]
      exact List.mem_append_left _ (by simpa using ha)
    case pos =>
      simp only [step, hmeta, Bool.not_true, Bool.false_eq_true, if_false]
      cases hdec : msg.decoded with
      | none =>
        refine ⟨by simp [List.Disjoint], by simp, ?_⟩
        simp only [nakIds_append, nakIds_nakAll, nakIds_cons, List.append_nil]
        intro a ha
        exact hsub2 (by simpa using ha)
      | some evt0 =>
        simp only []
        by_cases hskip : (shouldSkip cfg evt0).1
        · rw [if_pos hskip]
          rw [removeFirst_append_self s.pending msg hmnotmem]
          refine ⟨rfl, ?_, ?_, ?_, hpn, hpa⟩
          · simp [inputIds]
          · intro a ha hb
            have ha2 : a = msg.id := by simpa using ha
            subst ha2
            exact hmid hb
          · simp
        · rw [if_neg hskip]
          cases hproc : cfg.processResult
              ({ s with pending := s.pending ++ [msg] } : BufState).processCount with
          | error e =>
            refine ⟨by simp [List.Disjoint], by simp, ?_⟩
            simp only [nakIds_cons, nakIds_append, nakIds_nakAll, List.append_nil,
              List.nil_append]
            intro a ha
            exact hsub2 (by simpa using ha)
          | ok flushHint =>
            simp only []
            split
            · split
              next hret =>
                exact flush_leaf_stop cfg _ _ [.processCall msg.id (shouldSkip cfg evt0).2]
                  hall2 hsub2 rfl rfl
              next hret =>
                exact flush_leaf_cont cfg _ _ [.processCall msg.id (shouldSkip cfg evt0).2]
                  hall2 hsub2 hn2 ((Bool.not_eq_true _) ▸ hret) rfl rfl
            · split
              · exact ⟨rfl, by simp, by simp [List.Disjoint], hsub2, hn2, hall2⟩
              · split
                · split
                  next hret =>
                    exact flush_leaf_stop cfg _ _ [.processCall msg.id (shouldSkip cfg evt0).2]
                      hall2 hsub2 rfl rfl
                  next hret =>
                    exact flush_leaf_cont cfg _ _ [.processCall msg.id (shouldSkip cfg evt0).2]
                      hall2 hsub2 hn2 ((Bool.not_eq_true _) ▸ hret) rfl rfl
                · exact ⟨rfl, by simp, by simp [List.Disjoint], hsub2, hn2, hall2⟩

/-- Run-level accounting: starting from a batch with distinct, ack-able
ids, with pairwise-distinct incoming ids and succeeding acks, the whole
trace acks and naks disjoint id sets, both within the ids seen. -/
lemma run_disjoint_aux (cfg : Cfg) :
    ∀ (inputs : List Input) (s : BufState),
      (pendingIds s).Nodup →
      (∀ m ∈ s.pending, m.ackOk = true) →
      (∀ i ∈ inputs, InputAcksOk i) →
      (pendingIds s ++ arriveIds inputs).Nodup →
      (ackIds (traceOf (run cfg s inputs))).Disjoint (nakIds (traceOf (run cfg s inputs))) ∧
      ackIds (traceOf (run cfg s inputs)) ⊆ pendingIds s ++ arriveIds inputs ∧
      nakIds (traceOf (run cfg s inputs)) ⊆ pendingIds s ++ arriveIds inputs := by
  intro inputs
  induction inputs with
  | nil =>
    intro s _ _ _ _
    simp [run, traceOf, List.Disjoint]
  | cons i rest ih =>
    intro s hpn hpa hia hnd
    have hnd' : (pendingIds s ++ (inputIds i ++ arriveIds rest)).Nodup := by
      simpa [arriveIds] using hnd
    obtain ⟨hndA, hndBC, hdisjA⟩ := List.nodup_append.mp hnd'
    obtain ⟨hndB, hndC, hdisjBC⟩ := List.nodup_append.mp hndBC
    have hfresh : ∀ n ∈ inputIds i, n ∉ pendingIds s := by
      intro n hn hns
      exact hdisjA hns (List.mem_append_left _ hn)
    have hsf := step_facts cfg s i hpn hpa (hia i (by simp)) hfresh
    have hgoal : pendingIds s ++ arriveIds (i :: rest) =
        pendingIds s ++ (inputIds i ++ arriveIds rest) := by
      simp [arriveIds]
    rw [hgoal]
    cases hout : step cfg s i with
    | panicked as =>
      rw [hout] at hsf
      have htr : traceOf (run cfg s (i :: rest)) = as := by
        simp only [run, hout, traceOf]
      rw [htr, hsf]
      exact ⟨by simp [List.Disjoint], by simp, by simp⟩
    | stop s2 as =>
      rw [hout] at hsf
      obtain ⟨h1, h2, h3⟩ := hsf
      have htr : traceOf (run cfg s (i :: rest)) = as := by
        simp only [run, hout, traceOf]
      rw [htr]
      have hsubAB : pendingIds s ++ inputIds i ⊆
          pendingIds s ++ (inputIds i ++ arriveIds rest) := by
        intro a ha
        rcases List.mem_append.mp ha with h | h
        · exact List.mem_append_left _ h
        · exact List.mem_append_right _ (List.mem_append_left _ h)
      exact ⟨h1, h2.trans hsubAB, h3.trans hsubAB⟩
    | cont s2 as =>
      rw [hout] at hsf
      obtain ⟨hnak0, hackSub, hackDisj, hpSub, hpNodup, hpAck⟩ := hsf
      have hia2 : ∀ j ∈ rest, InputAcksOk j := fun j hj => hia j (by simp [hj])
      have hdisjC : (pendingIds s2).Disjoint (arriveIds rest) := by
        intro a ha hc
        rcases List.mem_append.mp (hpSub ha) with h | h
        · exact hdisjA h (List.mem_append_right _ hc)
        · exact hdisjBC h hc
      have hnd2 : (pendingIds s2 ++ arriveIds rest).Nodup :=
        List.nodup_append.mpr ⟨hpNodup, hndC, hdisjC⟩
      obtain ⟨ih1, ih2, ih3⟩ := ih s2 hpNodup hpAck hia2 hnd2
      have htr : traceOf (run cfg s (i :: rest)) = as ++ traceOf (run cfg s2 rest) := by
        simp only [run, hout]
        cases hr : run cfg s2 rest <;> simp [traceOf]
      rw [htr]
      have hsubAB : pendingIds s ++ inputIds i ⊆
          pendingIds s ++ (inputIds i ++ arriveIds rest) := by
        intro a ha
        rcases List.mem_append.mp ha with h | h
        · exact List.mem_append_left _ h
        · exact List.mem_append_right _ (List.mem_append_left _ h)
      have hsub2 : pendingIds s2 ++ arriveIds rest ⊆
          pendingIds s ++ (inputIds i ++ arriveIds rest) := by
        intro a ha
        rcases List.mem_append.mp ha with h | h
        · exact hsubAB (hpSub h)
        · exact List.mem_append_right _ (List.mem_append_right _ h)
      refine ⟨?_, ?_, ?_⟩
      · simp only [ackIds_append, nakIds_append, hnak0, List.nil_append]
        rw [List.disjoint_append_left]
        refine ⟨?_, ih1⟩
        intro a ha hn
        rcases List.mem_append.mp (ih3 hn) with h | h
        · exact hackDisj ha h
        · rcases List.mem_append.mp (hackSub ha) with h2 | h2
          · exact hdisjA h2 (List.mem_append_right _ h)
          · exact hdisjBC h2 h
      · simp only [ackIds_append]
        rw [List.append_subset]
        exact ⟨hackSub.trans hsubAB, ih2.trans hsub2⟩
      · simp only [nakIds_append, hnak0, List.nil_append]
        exact ih3.trans hsub2

/-- **C3, counterexample.** A dispatcher run in which a message is both
acked and naked: two messages arrive, the second fills the batch
(`maxBatchSize = 2`) and triggers a flush; `driver.Flush` succeeds, the
first ack succeeds, the second ack fails, and `nackEverything` then naks
both messages — including message 0, which was already acked. -/
theorem dispatcher_ack_and_nak_counterexample :
    (0 : Nat) ∈ ackIds (traceOf (run { max := 10, maxBatchSize := 2 } initState
      [.msgArrive { id := 0, decoded := some exEvtSmall } 0,
       .msgArrive { id := 1, decoded := some exEvtSmall, ackOk := false } 1])) ∧
    (0 : Nat) ∈ nakIds (traceOf (run { max := 10, maxBatchSize := 2 } initState
      [.msgArrive { id := 0, decoded := some exEvtSmall } 0,
       .msgArrive { id := 1, decoded := some exEvtSmall, ackOk := false } 1])) := by
  constructor <;> decide

/-- **C3 (amended).** In every run of the dispatcher from its initial
state in which the delivered messages carry pairwise-distinct ids and
every `Ack` call succeeds, no message is both acked and naked.  (When an
`Ack` fails mid-flush the code naks the entire pending slice, including
already-acked messages, so the hypothesis that acks succeed is
necessary.) -/
theorem dispatcher_no_ack_and_nak (cfg : Cfg) (inputs : List Input)
    (hacks : ∀ i ∈ inputs, InputAcksOk i)
    (hnodup : (arriveIds inputs).Nodup) :
    (ackIds (traceOf (run cfg initState inputs))).Disjoint
      (nakIds (traceOf (run cfg initState inputs))) :=
  (run_disjoint_aux cfg inputs initState List.nodup_nil
    (fun m hm => absurd hm (List.not_mem_nil m)) hacks (by simpa [initState, pendingIds])).1

/-- Witness for `dispatcher_no_ack_and_nak`: two fresh messages, second
triggers a successful flush. -/
theorem dispatcher_no_ack_and_nak_witness :
    (ackIds (traceOf (run { max := 10, maxBatchSize := 2 } initState
      [.msgArrive { id := 0, decoded := some exEvtSmall } 0,
       .msgArrive { id := 1, decoded := some exEvtSmall } 1]))).Disjoint
      (nakIds (traceOf (run { max := 10, maxBatchSize := 2 } initState
        [.msgArrive { id := 0, decoded := some exEvtSmall } 0,
         .msgArrive { id := 1, decoded := some exEvtSmall } 1]))) :=
  dispatcher_no_ack_and_nak { max := 10, maxBatchSize := 2 }
    [.msgArrive { id := 0, decoded := some exEvtSmall } 0,
     .msgArrive { id := 1, decoded := some exEvtSmall } 1]
    (by
      intro i hi
      rcases List.mem_cons.mp hi with rfl | hi2
      · exact rfl
      · rcases List.mem_cons.mp hi2 with rfl | hi3
        · exact rfl
        · exact absurd hi3 (List.not_mem_nil i))
    (by decide)

end EDS
